import Mathlib

/-!
Verification of the `cpx.c` recursive-copy program (src/Code.c).

The filesystem is embedded as a tree of entries.  A regular file carries
its byte content (`List Nat`) together with a flag saying whether
`fopen(src, "rb")` succeeds on it; a directory carries a flag saying
whether `opendir` succeeds on it, plus its children (named entries, in
the order `readdir` enumerates them).  `Entry.other` covers everything
`stat` classifies as neither regular file nor directory (symlinks,
sockets, FIFOs, devices).  Destination-side effects (mkdir outcome,
`fopen(dst, "wb")` outcome, `fwrite` capacity) are an environment of
oracles keyed by destination path, since the destination tree is not
traversed by the program.
-/

mutual
inductive Entry : Type where
  | file (content : List Nat) (openOK : Bool) : Entry
  | dir (listable : Bool) (children : Children) : Entry
  | other : Entry
  deriving DecidableEq
inductive Children : Type where
  | nil : Children
  | cons (name : String) (e : Entry) (rest : Children) : Children
  deriving DecidableEq
end

/-- Value of `PATH_MAX` on the target platform; `snprintf` into a `char[PATH_MAX]`
buffer truncates (reports `rc >= PATH_MAX`) when the composed path has
length `≥ PATH_MAX`. -/
def PATH_MAX : Nat := 4096

/-- Streaming chunk size of `copy_file` (8192 bytes). -/
def BUFFER_SIZE : Nat := 8192

def Children.append : Children → Children → Children
  | .nil, b => b
  | .cons n e r, b => .cons n e (r.append b)

mutual
/-- Embedding of `count_files` (src/Code.c lines 20–42).  `stat` has
already succeeded and classified `path` as this entry; a regular file
adds one, a directory whose `opendir` succeeds recurses into each child
whose composed path `path/name` fits in the `PATH_MAX` buffer
(`snprintf` truncation is silently skipped), anything else contributes
nothing. -/
def count_files (path : String) : Entry → Nat
  | .file _ _ => 1
  | .dir listable cs => if listable then count_children path cs else 0
  | .other => 0
/-- The `readdir` loop of `count_files`: the `.`/`..` pseudo-entries are
not modelled (children hold only real entries). -/
def count_children (path : String) : Children → Nat
  | .nil => 0
  | .cons name e rest =>
      (if PATH_MAX ≤ (path ++ "/" ++ name).length then 0
       else count_files (path ++ "/" ++ name) e)
      + count_children path rest
end

mutual
/-- Spec-side count: the number of regular files reachable from the root
by unlimited-depth traversal, with no skipping of any kind. -/
def numFiles : Entry → Nat
  | .file _ _ => 1
  | .dir _ cs => numFilesC cs
  | .other => 0
/-- Spec-side count over a child list. -/
def numFilesC : Children → Nat
  | .nil => 0
  | .cons _ e rest => numFiles e + numFilesC rest
end

mutual
/-- Every directory in the tree can be opened for listing. -/
def allListable : Entry → Bool
  | .file _ _ => true
  | .dir listable cs => listable && allListableC cs
  | .other => true
/-- Conjunction of `allListable` over a child list. -/
def allListableC : Children → Bool
  | .nil => true
  | .cons _ e rest => allListable e && allListableC rest
end

mutual
/-- Every source path composed during a scan rooted at `path` stays
strictly below `PATH_MAX`. -/
def scanFits (path : String) : Entry → Bool
  | .file _ _ => true
  | .other => true
  | .dir _ cs => scanFitsC path cs
/-- Conjunction of `scanFits` over a child list. -/
def scanFitsC (path : String) : Children → Bool
  | .nil => true
  | .cons name e rest =>
      decide ((path ++ "/" ++ name).length < PATH_MAX)
      && scanFits (path ++ "/" ++ name) e && scanFitsC path rest
end

/-- Permutation of a directory's child list: the order in which
`readdir` happens to enumerate the entries.  Mirrors `List.Perm`. -/
inductive PermC : Children → Children → Prop where
  | nil : PermC .nil .nil
  | cons (n : String) (e : Entry) {r r' : Children} :
      PermC r r' → PermC (.cons n e r) (.cons n e r')
  | swap (n1 : String) (e1 : Entry) (n2 : String) (e2 : Entry)
      (r : Children) :
      PermC (.cons n1 e1 (.cons n2 e2 r)) (.cons n2 e2 (.cons n1 e1 r))
  | trans {a b c : Children} : PermC a b → PermC b c → PermC a c

/-- The sequence of chunks `fread(buf, 1, sz, fsrc)` yields on a regular
file of the given content: full `sz`-byte chunks, then the (possibly
empty) remainder, then 0 which ends the loop.  The fuel `content.length`
suffices because each step consumes at least one byte (for `sz > 0`). -/
def chunksOf (sz : Nat) (content : List Nat) : List (List Nat) :=
  go content.length content
where
  go : Nat → List Nat → List (List Nat)
    | _, [] => []
    | 0, _ => []
    | fuel + 1, l => l.take sz :: go fuel (l.drop sz)

/-- The `fwrite` loop body of `copy_file`: chunk `i` has `cap i` bytes of
write capacity, so `fwrite` reports `wrote = min (cap i) n` for an
`n`-byte chunk; `wrote ≠ n` (a short write) aborts with an error after
appending only the bytes that made it out.  Returns (no short write
occurred, bytes appended to the destination). -/
def writeChunks (cap : Nat → Nat) : Nat → List (List Nat) → Bool × List Nat
  | _, [] => (true, [])
  | i, c :: cs =>
      let wrote := min (cap i) c.length
      if wrote = c.length then
        let r := writeChunks cap (i + 1) cs
        (r.1, c ++ r.2)
      else
        (false, c.take wrote)

/-- Observable outcome of one `copy_file` call. `ok`: returned 0.
`created`: `fopen(dst, "wb")` succeeded, so the destination file exists
(truncated).  `written`: the bytes the destination file holds on return.
`opens`/`closes`: successful `fopen`s and `fclose`s performed.
`increments`: times `copied_files++` ran. `renders`: `show_progress`
calls. `errors`: `fprintf(stderr, ...)` reports. -/
structure FileResult where
  ok : Bool
  created : Bool
  written : List Nat
  opens : Nat
  closes : Nat
  increments : Nat
  renders : Nat
  errors : Nat
  deriving DecidableEq, Repr

/-- Embedding of `copy_file` (src/Code.c lines 60–93).  `srcOpenOK` is
whether `fopen(src, "rb")` succeeds, `dstOpenOK` whether
`fopen(dst, "wb")` succeeds, and `cap` the per-chunk write capacity of
the destination. -/
def copy_file (content : List Nat) (srcOpenOK dstOpenOK : Bool)
    (cap : Nat → Nat) : FileResult :=
  if srcOpenOK = false then
    { ok := false, created := false, written := [], opens := 0,
      closes := 0, increments := 0, renders := 0, errors := 1 }
  else if dstOpenOK = false then
    { ok := false, created := false, written := [], opens := 1,
      closes := 1, increments := 0, renders := 0, errors := 1 }
  else
    let w := writeChunks cap 0 (chunksOf BUFFER_SIZE content)
    if w.1 then
      { ok := true, created := true, written := w.2, opens := 2,
        closes := 2, increments := 1, renders := 1, errors := 0 }
    else
      { ok := false, created := true, written := w.2, opens := 2,
        closes := 2, increments := 0, renders := 0, errors := 1 }

/-- Destination-side environment: outcome oracles keyed by destination
path.  `mkdirOK p`: `mkdir(p, 0755)` either succeeds or fails with
`EEXIST` (so the code proceeds); `dstOpenOK p`: `fopen(p, "wb")`
succeeds; `cap p i`: write capacity for chunk `i` of file `p`. -/
structure FsEnv where
  mkdirOK : String → Bool
  dstOpenOK : String → Bool
  cap : String → Nat → Nat

/-- Environment in which every destination-side operation succeeds. -/
def envAllOK : FsEnv :=
  { mkdirOK := fun _ => true, dstOpenOK := fun _ => true,
    cap := fun _ _ => BUFFER_SIZE }

/-- Observable outcome of one `copy_dir` call (or of the remainder of
its `readdir` loop).  `ok`: the call returned 0.  `increments`: times
`copied_files++` ran below it; `renders`: `show_progress` calls;
`fileOks`: `copy_file` invocations that returned 0; `errors`: stderr
reports; `mkdirs`: successful `mkdir` calls (including `EEXIST`), in
order; `writes`: destination files opened for writing, with the bytes
they hold afterwards. -/
structure TreeResult where
  ok : Bool
  increments : Nat
  renders : Nat
  fileOks : Nat
  errors : Nat
  mkdirs : List String
  writes : List (String × List Nat)
  deriving DecidableEq, Repr

/-- Sequencing of the loop: effects of the current child followed by the
effects of the rest of the loop; the current child's status `r1.ok` is
discarded, exactly as lines 129 and 132 of src/Code.c discard the return
values of the recursive `copy_dir` and of `copy_file`. -/
def TreeResult.seq (r1 r2 : TreeResult) : TreeResult :=
  { ok := r2.ok, increments := r1.increments + r2.increments,
    renders := r1.renders + r2.renders, fileOks := r1.fileOks + r2.fileOks,
    errors := r1.errors + r2.errors, mkdirs := r1.mkdirs ++ r2.mkdirs,
    writes := r1.writes ++ r2.writes }

/-- The all-quiet outcome: nothing happened, status 0. -/
def TreeResult.none : TreeResult :=
  { ok := true, increments := 0, renders := 0, fileOks := 0, errors := 0,
    mkdirs := [], writes := [] }

/-- Outcome of a failing call that only reported one error. -/
def TreeResult.fail : TreeResult :=
  { ok := false, increments := 0, renders := 0, fileOks := 0, errors := 1,
    mkdirs := [], writes := [] }

/-- Outcome of one `copy_file` call as seen from its caller's loop. -/
def TreeResult.ofFile (r : FileResult) (dst : String) : TreeResult :=
  { ok := r.ok, increments := r.increments, renders := r.renders,
    fileOks := if r.ok then 1 else 0, errors := r.errors, mkdirs := [],
    writes := if r.created then [(dst, r.written)] else [] }

mutual
/-- The copy pass on one classified source entry.  For a directory this
is the body of `copy_dir` (src/Code.c lines 95–140): `mkdir(dst)`
failing other than with `EEXIST` is fatal to the call, as is
`opendir(src)` failing; otherwise the loop over the children runs and
the call returns 0.  For a regular file it is the `copy_file` call of
line 132; for anything else the silent skip of line 134. -/
def copy_entry (env : FsEnv) (src dst : String) : Entry → TreeResult
  | .file content openOK =>
      TreeResult.ofFile
        (copy_file content openOK (env.dstOpenOK dst) (env.cap dst)) dst
  | .dir listable cs =>
      if env.mkdirOK dst = false then TreeResult.fail
      else if listable = false then
        { TreeResult.fail with mkdirs := [dst] }
      else
        let r := copy_children env src dst cs
        { r with ok := true, mkdirs := dst :: r.mkdirs }
  | .other => TreeResult.none

/-- The `readdir` loop of `copy_dir`: compose `srcpath`/`dstpath` (a
child whose either composed path overflows `PATH_MAX` is reported and
skipped), `stat` the child, then recurse into directories, `copy_file`
regular files, and silently skip everything else. -/
def copy_children (env : FsEnv) (src dst : String) : Children → TreeResult
  | .nil => TreeResult.none
  | .cons name e rest =>
      let sp := src ++ "/" ++ name
      let dp := dst ++ "/" ++ name
      let r1 :=
        if PATH_MAX ≤ sp.length ∨ PATH_MAX ≤ dp.length then
          TreeResult.fail
        else copy_entry env sp dp e
      r1.seq (copy_children env src dst rest)
end

/-- Embedding of `copy_dir` (src/Code.c lines 95–140), called on a
source directory whose `opendir` outcome is `listable` and whose
`readdir` listing is `cs`. -/
def copy_dir (env : FsEnv) (src dst : String) (listable : Bool)
    (cs : Children) : TreeResult :=
  copy_entry env src dst (.dir listable cs)

/-- The `while (len > 1 && in[len - 1] == '/') len--;` loop of
`trim_trailing_slashes` (src/Code.c lines 143–149), by structural
recursion on `len`. -/
def trimLen (l : List Char) : Nat → Nat
  | 0 => 0
  | len + 1 =>
      if 1 < len + 1 ∧ l.getD len ' ' = '/' then trimLen l len
      else len + 1

/-- Embedding of `trim_trailing_slashes` with its `PATH_MAX`-sized
output buffer: trim trailing slashes (never below one character), then
clamp to `PATH_MAX - 1` characters. -/
def trim_trailing_slashes (s : String) : String :=
  let l := s.toList
  let len := trimLen l l.length
  let len2 := if PATH_MAX ≤ len then PATH_MAX - 1 else len
  String.mk (l.take len2)

/-- Model of `strrchr(s, '/')` followed by `base = (base ? base + 1 : s)`: the
suffix of `s` after the last `/`, or all of `s` when it has none. -/
def afterLastSlash (s : String) : String :=
  String.mk ((s.toList.reverse.takeWhile (fun c => c ≠ '/')).reverse)

/-- Observable outcome of a whole run of `main`.  `exitCode` is the
process exit status; `mkdirs`/`writes` as in `TreeResult`;
`noFilesMsg`: printed `No files to copy.`; `doneMsg`: printed `Done.`;
`treeCall`: the `(src, newdst)` arguments `copy_dir` was invoked with at
top level, if it was. -/
structure MainResult where
  exitCode : Nat
  mkdirs : List String
  writes : List (String × List Nat)
  noFilesMsg : Bool
  doneMsg : Bool
  treeCall : Option (String × String)
  deriving DecidableEq, Repr

/-- A `MainResult` for a run aborted before any filesystem effect. -/
def MainResult.abort (code : Nat) : MainResult :=
  { exitCode := code, mkdirs := [], writes := [], noFilesMsg := false,
    doneMsg := false, treeCall := Option.none }

/-- Embedding of `main` (src/Code.c lines 151–226).  `argc` is the
argument count, `src`/`dst` the two path arguments, `srcEntry` the
result of `stat(src)` (`Option.none` when the `stat` fails), `dstIsDir`
whether `stat(dst)` succeeds and reports a directory (consulted only on
the regular-file branch), `env` the destination-side oracles. -/
def main_run (argc : Nat) (src dst : String) (srcEntry : Option Entry)
    (dstIsDir : Bool) (env : FsEnv) : MainResult :=
  if argc ≠ 3 then MainResult.abort 1
  else
    match srcEntry with
    | Option.none => MainResult.abort 1
    | Option.some e =>
        let total := count_files src e
        if total = 0 then
          { MainResult.abort 0 with noFilesMsg := true }
        else
          match e with
          | .dir listable cs =>
              let srcTrim := trim_trailing_slashes src
              let base := afterLastSlash srcTrim
              let newdst := dst ++ "/" ++ base
              if PATH_MAX ≤ newdst.length then MainResult.abort 1
              else if env.mkdirOK newdst = false then MainResult.abort 1
              else
                let r := copy_dir env src newdst listable cs
                { exitCode := 0, mkdirs := newdst :: r.mkdirs,
                  writes := r.writes, noFilesMsg := false, doneMsg := true,
                  treeCall := Option.some (src, newdst) }
          | .file content openOK =>
              let dstpath :=
                if dstIsDir then dst ++ "/" ++ afterLastSlash src else dst
              if PATH_MAX ≤ dstpath.length then MainResult.abort 1
              else
                let r := copy_file content openOK (env.dstOpenOK dstpath)
                  (env.cap dstpath)
                { exitCode := 0, mkdirs := [],
                  writes := if r.created then [(dstpath, r.written)] else [],
                  noFilesMsg := false, doneMsg := true,
                  treeCall := Option.none }
          | .other => MainResult.abort 1

/-- A name so long that `snprintf` truncates every path composed with
it. -/
def longName : String := String.mk (List.replicate PATH_MAX 'a')

/-- A fixed tree holding one regular file whose composed path overflows
`PATH_MAX`. -/
def tLong : Entry := .dir true (.cons longName (.file [] true) .nil)

/-- A fixed tree holding one regular file inside a directory whose
`opendir` fails. -/
def tNoList : Entry := .dir false (.cons "f" (.file [] true) .nil)

/-- A small healthy tree: two regular files, a nested directory, and an
`Other` entry that must not be counted. -/
def tGood : Entry :=
  .dir true (.cons "a" (.file [] true)
    (.cons "b" (.dir true (.cons "c" (.file [1] true) .nil))
      (.cons "s" .other .nil)))

/-- One enumeration order of a directory pair. -/
def csW : Children :=
  .cons "a" (.file [] true) (.cons "b" .other .nil)

/-- The other enumeration order of the same directory pair. -/
def csW2 : Children :=
  .cons "b" .other (.cons "a" (.file [] true) .nil)

mutual
/-- Every source and destination path composed during a copy pass rooted
at `(src, dst)` stays strictly below `PATH_MAX`. -/
def copyFits (src dst : String) : Entry → Bool
  | .file _ _ => true
  | .other => true
  | .dir _ cs => copyFitsC src dst cs
/-- Conjunction of `copyFits` over a child list. -/
def copyFitsC (src dst : String) : Children → Bool
  | .nil => true
  | .cons name e rest =>
      decide ((src ++ "/" ++ name).length < PATH_MAX)
        && decide ((dst ++ "/" ++ name).length < PATH_MAX)
        && copyFits (src ++ "/" ++ name) (dst ++ "/" ++ name) e
        && copyFitsC src dst rest
end

mutual
/-- The number of regular files in the tree whose source-side `fopen`
succeeds. -/
def openableFiles : Entry → Nat
  | .file _ openOK => if openOK then 1 else 0
  | .dir _ cs => openableFilesC cs
  | .other => 0
/-- Sum of `openableFiles` over a child list. -/
def openableFilesC : Children → Nat
  | .nil => 0
  | .cons _ e rest => openableFiles e + openableFilesC rest
end

/-- A directory holding one unopenable file among openable siblings and
an openable file in a sibling subdirectory. -/
def cs5 : Children :=
  .cons "bad" (.file [1] false)
    (.cons "good" (.file [2] true)
      (.cons "sub" (.dir true (.cons "x" (.file [] true) .nil)) .nil))


/-- A directory source tree holding one regular file. -/
def t8 : Entry := .dir true (.cons "f" (.file [0] true) .nil)

theorem chunksOf_go_flatten (sz : Nat) (hsz : 0 < sz) :
    ∀ (fuel : Nat) (l : List Nat), l.length ≤ fuel →
      (chunksOf.go sz fuel l).flatten = l := by
  intro fuel
  induction fuel with
  | zero =>
      intro l hl
      cases l with
      | nil => simp [chunksOf.go]
      | cons a t => simp at hl
  | succ n ih =>
      intro l hl
      cases l with
      | nil => simp [chunksOf.go]
      | cons a t =>
          simp only [chunksOf.go, List.flatten_cons]
          rw [ih]
          · exact List.take_append_drop sz (a :: t)
          · have hl' : t.length + 1 ≤ n + 1 := by simpa using hl
            simp only [List.length_drop, List.length_cons]
            omega

theorem chunksOf_flatten (content : List Nat) :
    (chunksOf BUFFER_SIZE content).flatten = content :=
  chunksOf_go_flatten BUFFER_SIZE (by decide) content.length content le_rfl

theorem chunksOf_go_short (sz : Nat) :
    ∀ (fuel : Nat) (l : List Nat) (c : List Nat),
      c ∈ chunksOf.go sz fuel l → c.length ≤ sz := by
  intro fuel
  induction fuel with
  | zero =>
      intro l c hc
      cases l <;> simp [chunksOf.go] at hc
  | succ n ih =>
      intro l c hc
      cases l with
      | nil => simp [chunksOf.go] at hc
      | cons a t =>
          simp only [chunksOf.go, List.mem_cons] at hc
          rcases hc with h | h
          · subst h
            simp [List.length_take]
          · exact ih _ _ h

theorem writeChunks_ok_flatten (cap : Nat → Nat) :
    ∀ (cs : List (List Nat)) (i : Nat), (writeChunks cap i cs).1 = true →
      (writeChunks cap i cs).2 = cs.flatten := by
  intro cs
  induction cs with
  | nil => intro i _; simp [writeChunks]
  | cons c rest ih =>
      intro i h
      by_cases hw : c.length ≤ cap i
      · have hmin : min (cap i) c.length = c.length := min_eq_right hw
        simp only [writeChunks, hmin, if_pos] at h ⊢
        rw [List.flatten_cons, ih (i + 1) h]
      · have hne : ¬ min (cap i) c.length = c.length :=
          fun hmin => hw (hmin ▸ min_le_left _ _)
        simp only [writeChunks, if_neg hne] at h
        exact absurd h (by simp)

theorem writeChunks_full (cap : Nat → Nat) (sz : Nat)
    (hcap : ∀ i, sz ≤ cap i) :
    ∀ (cs : List (List Nat)), (∀ c ∈ cs, c.length ≤ sz) →
      ∀ i, (writeChunks cap i cs).1 = true := by
  intro cs
  induction cs with
  | nil => intro _ i; simp [writeChunks]
  | cons c rest ih =>
      intro h i
      have hc : c.length ≤ cap i := le_trans (h c (by simp)) (hcap i)
      have hw : min (cap i) c.length = c.length := min_eq_right hc
      simp only [writeChunks, hw, if_pos]
      exact ih (fun d hd => h d (by simp [hd])) (i + 1)

/-- C2: whenever `copy_file` returns success, the destination file's
bytes are exactly the source file's bytes: streaming in
`BUFFER_SIZE`-byte chunks loses and duplicates nothing, for contents of
every length (empty, a multiple of the chunk size, or not). -/
theorem copy_file_byte_exact (content : List Nat) (sOK dOK : Bool)
    (cap : Nat → Nat)
    (h : (copy_file content sOK dOK cap).ok = true) :
    (copy_file content sOK dOK cap).written = content := by
  cases sOK with
  | false => simp [copy_file] at h
  | true =>
      cases dOK with
      | false => simp [copy_file] at h
      | true =>
          by_cases hw :
            (writeChunks cap 0 (chunksOf BUFFER_SIZE content)).1 = true
          · simp only [copy_file, hw, if_pos, Bool.false_eq_true,
              if_false]
            rw [writeChunks_ok_flatten cap _ 0 hw, chunksOf_flatten]
            simp
          · simp [copy_file, hw] at h

/-- Witness for C2 at a concrete input. -/
theorem copy_file_byte_exact_witness :
    (copy_file [7, 0, 255] true true (fun _ => BUFFER_SIZE)).written
      = [7, 0, 255] :=
  copy_file_byte_exact [7, 0, 255] true true (fun _ => BUFFER_SIZE)
    (by decide)

theorem copy_file_increments_eq (content : List Nat) (sOK dOK : Bool)
    (cap : Nat → Nat) :
    (copy_file content sOK dOK cap).increments =
      if (copy_file content sOK dOK cap).ok then 1 else 0 := by
  unfold copy_file
  cases sOK <;> cases dOK <;> simp
  split <;> simp

theorem copy_file_renders_eq (content : List Nat) (sOK dOK : Bool)
    (cap : Nat → Nat) :
    (copy_file content sOK dOK cap).renders =
      (copy_file content sOK dOK cap).increments := by
  unfold copy_file
  cases sOK <;> cases dOK <;> simp
  split <;> simp

theorem copy_file_closes_eq (content : List Nat) (sOK dOK : Bool)
    (cap : Nat → Nat) :
    (copy_file content sOK dOK cap).closes =
      (copy_file content sOK dOK cap).opens := by
  unfold copy_file
  cases sOK <;> cases dOK <;> simp
  split <;> simp

theorem copy_file_errors_eq (content : List Nat) (sOK dOK : Bool)
    (cap : Nat → Nat) :
    (copy_file content sOK dOK cap).errors =
      if (copy_file content sOK dOK cap).ok then 0 else 1 := by
  unfold copy_file
  cases sOK <;> cases dOK <;> simp
  split <;> simp

/-- C4: `copy_file` increments `copied_files` and calls `show_progress`
exactly once if and only if it returns success; on any failure path
(source open, destination open, short write) it reports exactly one
error, performs no increment, and every handle it opened is closed. -/
theorem copy_file_increment_exactly_on_success (content : List Nat)
    (sOK dOK : Bool) (cap : Nat → Nat) :
    (copy_file content sOK dOK cap).increments
        = (if (copy_file content sOK dOK cap).ok then 1 else 0)
      ∧ (copy_file content sOK dOK cap).renders
        = (copy_file content sOK dOK cap).increments
      ∧ (copy_file content sOK dOK cap).closes
        = (copy_file content sOK dOK cap).opens
      ∧ (copy_file content sOK dOK cap).errors
        = (if (copy_file content sOK dOK cap).ok then 0 else 1) :=
  ⟨copy_file_increments_eq content sOK dOK cap,
   copy_file_renders_eq content sOK dOK cap,
   copy_file_closes_eq content sOK dOK cap,
   copy_file_errors_eq content sOK dOK cap⟩

mutual
theorem count_le_numFiles :
    ∀ (path : String) (e : Entry), count_files path e ≤ numFiles e
  | path, .file c b => by simp [count_files, numFiles]
  | path, .dir l cs => by
      cases l
      · simp [count_files, numFiles]
      · simpa [count_files, numFiles] using count_le_numFilesC path cs
  | path, .other => by simp [count_files, numFiles]
theorem count_le_numFilesC :
    ∀ (path : String) (cs : Children),
      count_children path cs ≤ numFilesC cs
  | path, .nil => by simp [count_children, numFilesC]
  | path, .cons name e rest => by
      have h1 := count_le_numFiles (path ++ "/" ++ name) e
      have h2 := count_le_numFilesC path rest
      simp only [count_children, numFilesC]
      split
      · omega
      · omega
end

mutual
theorem count_eq_numFiles :
    ∀ (path : String) (e : Entry), allListable e = true →
      scanFits path e = true → count_files path e = numFiles e
  | path, .file c b, _, _ => by simp [count_files, numFiles]
  | path, .dir l cs, hl, hf => by
      simp only [allListable, Bool.and_eq_true] at hl
      simp only [scanFits] at hf
      simp [count_files, numFiles, hl.1,
        count_eq_numFilesC path cs hl.2 hf]
  | path, .other, _, _ => by simp [count_files, numFiles]
theorem count_eq_numFilesC :
    ∀ (path : String) (cs : Children), allListableC cs = true →
      scanFitsC path cs = true → count_children path cs = numFilesC cs
  | path, .nil, _, _ => by simp [count_children, numFilesC]
  | path, .cons name e rest, hl, hf => by
      simp only [allListableC, Bool.and_eq_true] at hl
      simp only [scanFitsC, Bool.and_eq_true, decide_eq_true_eq] at hf
      simp only [count_children, numFilesC]
      rw [if_neg (by omega : ¬ PATH_MAX ≤ (path ++ "/" ++ name).length)]
      rw [count_eq_numFiles _ e hl.1 hf.1.2,
        count_eq_numFilesC path rest hl.2 hf.2]
end

theorem count_children_perm (path : String) {cs cs' : Children}
    (h : PermC cs cs') :
    count_children path cs = count_children path cs' := by
  induction h with
  | nil => rfl
  | cons n e h ih => simp [count_children, ih]
  | swap n1 e1 n2 e2 r => simp only [count_children]; omega
  | trans h1 h2 ih1 ih2 => exact ih1.trans ih2

/-- C1 (amended): provided every directory of the tree can be opened for
listing and every composed source path stays below `PATH_MAX`,
`count_files` computes exactly the number of regular files reachable
from the root (directories and `Other` entries contribute nothing); and
the count of a directory is invariant under any permutation of the
order in which its entries are enumerated. -/
theorem count_files_exact :
    (∀ (path : String) (e : Entry), allListable e = true →
        scanFits path e = true → count_files path e = numFiles e)
    ∧ ∀ (path : String) (l : Bool) (cs cs' : Children), PermC cs cs' →
        count_files path (.dir l cs) = count_files path (.dir l cs') := by
  constructor
  · exact fun path e h1 h2 => count_eq_numFiles path e h1 h2
  · intro path l cs cs' h
    cases l <;> simp [count_files, count_children_perm path h]


theorem count_files_single_long (path name : String) (e : Entry)
    (h : PATH_MAX ≤ (path ++ "/" ++ name).length) :
    count_files path (.dir true (.cons name e .nil)) = 0 := by
  have h' : PATH_MAX ≤ path.length + "/".length + name.length := by
    simpa [String.length_append] using h
  simp [count_files, count_children]
  intro hc
  exfalso
  omega

/-- C1 counterexample: on these fixed, unchanging trees the scanner does
not report the exact number of reachable regular files — the file behind
an over-long composed path and the file inside an unlistable directory
are silently dropped. -/
theorem count_files_undercounts :
    (numFiles tLong = 1 ∧ count_files "/a" tLong = 0)
    ∧ (numFiles tNoList = 1 ∧ count_files "/a" tNoList = 0) := by
  refine ⟨⟨rfl, ?_⟩, rfl, rfl⟩
  have hname : longName.length = PATH_MAX := by
    simp [longName, String.length]
  have hlen : PATH_MAX ≤ ("/a" ++ "/" ++ longName).length := by
    simp [String.length_append, hname]
  exact count_files_single_long "/a" longName (.file [] true) hlen


mutual
theorem copy_entry_le_count :
    ∀ (env : FsEnv) (src dst : String) (e : Entry),
      (copy_entry env src dst e).increments ≤ count_files src e
  | env, src, dst, .file content b => by
      simp only [copy_entry, TreeResult.ofFile, count_files]
      rw [copy_file_increments_eq]
      split <;> simp
  | env, src, dst, .dir l cs => by
      cases hm : env.mkdirOK dst with
      | false => simp [copy_entry, hm, TreeResult.fail]
      | true =>
          cases l with
          | false => simp [copy_entry, hm, TreeResult.fail, count_files]
          | true =>
              simp only [copy_entry, hm, count_files]
              simpa using copy_children_le_count env src dst cs
  | env, src, dst, .other => by
      simp [copy_entry, TreeResult.none, count_files]
theorem copy_children_le_count :
    ∀ (env : FsEnv) (src dst : String) (cs : Children),
      (copy_children env src dst cs).increments ≤ count_children src cs
  | env, src, dst, .nil => by
      simp [copy_children, TreeResult.none, count_children]
  | env, src, dst, .cons name e rest => by
      have h2 := copy_children_le_count env src dst rest
      simp only [copy_children, TreeResult.seq, count_children]
      by_cases hb : PATH_MAX ≤ (src ++ "/" ++ name).length
          ∨ PATH_MAX ≤ (dst ++ "/" ++ name).length
      · rw [if_pos hb]
        simp only [TreeResult.fail]
        split <;> omega
      · rw [if_neg hb]
        push_neg at hb
        have h1 := copy_entry_le_count env (src ++ "/" ++ name)
          (dst ++ "/" ++ name) e
        rw [if_neg (by omega : ¬ PATH_MAX ≤ (src ++ "/" ++ name).length)]
        omega
end

mutual
theorem copy_entry_inc_eq_fileOks :
    ∀ (env : FsEnv) (src dst : String) (e : Entry),
      (copy_entry env src dst e).increments =
        (copy_entry env src dst e).fileOks
  | env, src, dst, .file content b => by
      simp only [copy_entry, TreeResult.ofFile]
      exact copy_file_increments_eq content b (env.dstOpenOK dst)
        (env.cap dst)
  | env, src, dst, .dir l cs => by
      cases hm : env.mkdirOK dst with
      | false => simp [copy_entry, hm, TreeResult.fail]
      | true =>
          cases l with
          | false => simp [copy_entry, hm, TreeResult.fail]
          | true =>
              simp only [copy_entry, hm]
              simpa using copy_entry_children_inc_eq_fileOks env src dst cs
  | env, src, dst, .other => rfl
theorem copy_entry_children_inc_eq_fileOks :
    ∀ (env : FsEnv) (src dst : String) (cs : Children),
      (copy_children env src dst cs).increments =
        (copy_children env src dst cs).fileOks
  | env, src, dst, .nil => rfl
  | env, src, dst, .cons name e rest => by
      have h2 := copy_entry_children_inc_eq_fileOks env src dst rest
      simp only [copy_children, TreeResult.seq]
      by_cases hb : PATH_MAX ≤ (src ++ "/" ++ name).length
          ∨ PATH_MAX ≤ (dst ++ "/" ++ name).length
      · rw [if_pos hb]
        simp only [TreeResult.fail]
        omega
      · rw [if_neg hb]
        have h1 := copy_entry_inc_eq_fileOks env (src ++ "/" ++ name)
          (dst ++ "/" ++ name) e
        omega
end

theorem copy_children_append_inc :
    ∀ (env : FsEnv) (src dst : String) (pre suf : Children),
      (copy_children env src dst (pre.append suf)).increments =
        (copy_children env src dst pre).increments
          + (copy_children env src dst suf).increments
  | env, src, dst, .nil, suf => by
      simp [Children.append, copy_children, TreeResult.none]
  | env, src, dst, .cons n e r, suf => by
      simp only [Children.append, copy_children, TreeResult.seq]
      rw [copy_children_append_inc env src dst r suf]
      omega

/-- C3: with the tree unchanged between the two passes, the number of
`copied_files++` events a `copy_dir` call performs never exceeds the
`totalFiles` the scanner computed on the same tree (so
`0 ≤ copiedFiles ≤ totalFiles` throughout); the counter is incremented
exactly once per `copy_file` call that returned success; and processing
more of a directory's entries never decreases the count (monotonicity of
the copy pass). -/
theorem copied_files_invariant (env : FsEnv) (src dst : String)
    (listable : Bool) (cs : Children) :
    (copy_dir env src dst listable cs).increments
        ≤ count_files src (.dir listable cs)
      ∧ (copy_dir env src dst listable cs).increments
        = (copy_dir env src dst listable cs).fileOks
      ∧ ∀ pre suf : Children,
          (copy_children env src dst pre).increments
            ≤ (copy_children env src dst (pre.append suf)).increments :=
  ⟨copy_entry_le_count env src dst (.dir listable cs),
   copy_entry_inc_eq_fileOks env src dst (.dir listable cs),
   fun pre suf => by
     rw [copy_children_append_inc env src dst pre suf]
     omega⟩

/-- C10: `copy_dir`'s status reflects only its own directory-level
operations — it is success exactly when the destination `mkdir`
succeeded (or hit `EEXIST`) and the source `opendir` succeeded, no
matter how many children (files or whole subtrees, with any failure
pattern `env` injects) failed. -/
theorem copy_dir_status_ignores_children (env : FsEnv) (src dst : String)
    (listable : Bool) (cs : Children) :
    (copy_dir env src dst listable cs).ok
      = (env.mkdirOK dst && listable) := by
  cases hm : env.mkdirOK dst <;> cases listable <;>
    simp [copy_dir, copy_entry, hm, TreeResult.fail]


theorem copy_file_inc_full (content : List Nat) (openOK : Bool)
    (cap : Nat → Nat) (hcap : ∀ i, BUFFER_SIZE ≤ cap i) :
    (copy_file content openOK true cap).increments
      = (if openOK then 1 else 0) := by
  cases openOK with
  | false => simp [copy_file]
  | true =>
      have hw : (writeChunks cap 0 (chunksOf BUFFER_SIZE content)).1
          = true :=
        writeChunks_full cap BUFFER_SIZE hcap _
          (fun c hc => chunksOf_go_short BUFFER_SIZE _ _ c hc) 0
      simp [copy_file, hw]

mutual
theorem copy_entry_full :
    ∀ (env : FsEnv) (src dst : String) (e : Entry),
      allListable e = true → copyFits src dst e = true →
      (∀ p, env.mkdirOK p = true) → (∀ p, env.dstOpenOK p = true) →
      (∀ p i, env.cap p i = BUFFER_SIZE) →
      (copy_entry env src dst e).increments = openableFiles e
  | env, src, dst, .file content b, _, _, hm, hd, hc => by
      simp only [copy_entry, TreeResult.ofFile, openableFiles]
      rw [hd dst]
      exact copy_file_inc_full content b (env.cap dst)
        (fun i => le_of_eq (hc dst i).symm)
  | env, src, dst, .dir l cs, hl, hf, hm, hd, hc => by
      simp only [allListable, Bool.and_eq_true] at hl
      simp only [copyFits] at hf
      simp only [copy_entry, hm dst, hl.1, openableFiles]
      simpa using copy_children_full env src dst cs hl.2 hf hm hd hc
  | env, src, dst, .other, _, _, _, _, _ => rfl
theorem copy_children_full :
    ∀ (env : FsEnv) (src dst : String) (cs : Children),
      allListableC cs = true → copyFitsC src dst cs = true →
      (∀ p, env.mkdirOK p = true) → (∀ p, env.dstOpenOK p = true) →
      (∀ p i, env.cap p i = BUFFER_SIZE) →
      (copy_children env src dst cs).increments = openableFilesC cs
  | env, src, dst, .nil, _, _, _, _, _ => rfl
  | env, src, dst, .cons name e rest, hl, hf, hm, hd, hc => by
      simp only [allListableC, Bool.and_eq_true] at hl
      simp only [copyFitsC, Bool.and_eq_true, decide_eq_true_eq] at hf
      simp only [copy_children, TreeResult.seq, openableFilesC]
      rw [if_neg (by omega :
        ¬ (PATH_MAX ≤ (src ++ "/" ++ name).length
            ∨ PATH_MAX ≤ (dst ++ "/" ++ name).length))]
      rw [copy_entry_full env (src ++ "/" ++ name) (dst ++ "/" ++ name) e
        hl.1 hf.1.2 hm hd hc]
      rw [copy_children_full env src dst rest hl.2 hf.2 hm hd hc]
end

/-- C5: in a run where only source-side `fopen` can fail (directories
all listable, all destination operations succeed, all composed paths
fit), a `copy_dir` call copies exactly the openable regular files of its
subtree: files that cannot be opened for reading contribute nothing,
and every sibling file — in the same directory and in other directories
— is still copied, with `copied_files` advanced once per success. -/
theorem copy_dir_skip_isolation (env : FsEnv) (src dst : String)
    (listable : Bool) (cs : Children)
    (hl : allListable (.dir listable cs) = true)
    (hf : copyFits src dst (.dir listable cs) = true)
    (hm : ∀ p, env.mkdirOK p = true)
    (hd : ∀ p, env.dstOpenOK p = true)
    (hc : ∀ p i, env.cap p i = BUFFER_SIZE) :
    (copy_dir env src dst listable cs).increments
      = openableFiles (.dir listable cs) :=
  copy_entry_full env src dst (.dir listable cs) hl hf hm hd hc


/-- Witness for C5 at a concrete input: the unopenable file is skipped,
both siblings (one in another directory) are still copied. -/
theorem copy_dir_skip_isolation_witness :
    (copy_dir envAllOK "/s" "/d" true cs5).increments
      = openableFiles (.dir true cs5) :=
  copy_dir_skip_isolation envAllOK "/s" "/d" true cs5 (by decide)
    (by decide) (fun _ => rfl) (fun _ => rfl) (fun _ _ => rfl)

/-- C7: for a source directory containing zero regular files (empty
subdirectories allowed), `main` prints `No files to copy.`, performs no
filesystem write of any kind (no `mkdir`, no file creation), prints no
completion message, makes no copy call, and exits 0. -/
theorem main_empty_source (src dst : String) (listable : Bool)
    (cs : Children) (dstIsDir : Bool) (env : FsEnv)
    (h : numFiles (.dir listable cs) = 0) :
    main_run 3 src dst (Option.some (.dir listable cs)) dstIsDir env =
      { exitCode := 0, mkdirs := [], writes := [], noFilesMsg := true,
        doneMsg := false, treeCall := Option.none } := by
  have hc : count_files src (.dir listable cs) = 0 :=
    Nat.le_zero.mp (le_of_le_of_eq (count_le_numFiles src _) h)
  simp [main_run, hc, MainResult.abort]

/-- Witness for C7 at a concrete input: a directory holding only an
empty subdirectory. -/
theorem main_empty_source_witness :
    main_run 3 "/s" "/d"
        (Option.some (.dir true (.cons "sub" (.dir true .nil) .nil)))
        false envAllOK =
      { exitCode := 0, mkdirs := [], writes := [], noFilesMsg := true,
        doneMsg := false, treeCall := Option.none } :=
  main_empty_source "/s" "/d" true (.cons "sub" (.dir true .nil) .nil)
    false envAllOK (by decide)

/-- C6, evaluated at the divergent input: a source whose `stat` succeeds
but which is neither a regular file nor a directory (socket, FIFO,
device).  The scan necessarily counts 0 files for it, so the zero-file
early exit fires first: the program prints `No files to copy.` and exits
0 — the `unsupported source type` / exit-1 branch of lines 219–222 is
unreachable. -/
theorem main_other_source_exits_zero :
    main_run 3 "/s" "/d" (Option.some Entry.other) false envAllOK =
      { exitCode := 0, mkdirs := [], writes := [], noFilesMsg := true,
        doneMsg := false, treeCall := Option.none } := by decide

theorem trimLen_append (l r : List Char) :
    ∀ len, len ≤ l.length → trimLen (l ++ r) len = trimLen l len := by
  intro len
  induction len with
  | zero => intro _; rfl
  | succ n ih =>
      intro h
      have hget : (l ++ r).getD n ' ' = l.getD n ' ' :=
        List.getD_append l r ' ' n (by omega)
      simp only [trimLen, hget]
      split
      · exact ih (by omega)
      · rfl

theorem trimLen_drops_slashes (l : List Char) (hl : 1 ≤ l.length) :
    ∀ j, trimLen (l ++ List.replicate j '/') (l.length + j)
      = trimLen l l.length := by
  intro j
  induction j with
  | zero => simp [trimLen_append l [] l.length le_rfl]
  | succ j ih =>
      have hsplit : l ++ List.replicate (j + 1) '/'
          = (l ++ List.replicate j '/') ++ ['/'] := by
        rw [List.replicate_succ' j '/', ← List.append_assoc]
      have hget : (l ++ List.replicate (j + 1) '/').getD (l.length + j) ' '
          = '/' := by
        rw [List.getD_append_right l _ ' ' (l.length + j) (by omega)]
        rw [List.getD_eq_getElem _ _ (by simp)]
        simp
      show trimLen (l ++ List.replicate (j + 1) '/') (l.length + j + 1)
        = trimLen l l.length
      simp only [trimLen, hget]
      rw [if_pos ⟨by omega, trivial⟩]
      rw [hsplit, trimLen_append _ ['/'] (l.length + j) (by simp)]
      exact ih

theorem trimLen_stops (s : List Char) (c : Char) (hc : c ≠ '/') :
    trimLen (s ++ [c]) (s ++ [c]).length = (s ++ [c]).length := by
  have hget : (s ++ [c]).getD s.length ' ' = c := by
    rw [List.getD_append_right s [c] ' ' s.length le_rfl]
    simp
  have hlen : (s ++ [c]).length = s.length + 1 := by simp
  rw [hlen]
  simp only [trimLen, hget]
  rw [if_neg (fun hcontra => hc hcontra.2)]

theorem trim_toList (l : List Char) :
    trim_trailing_slashes (String.mk l)
      = String.mk (List.take
          (if PATH_MAX ≤ trimLen l l.length then PATH_MAX - 1
           else trimLen l l.length) l) := rfl

theorem trim_shape (s : List Char) (c : Char) (k : Nat) (hc : c ≠ '/')
    (hfit : (s ++ [c]).length < PATH_MAX) :
    trim_trailing_slashes
        (String.mk ((s ++ [c]) ++ List.replicate (k + 1) '/'))
      = String.mk (s ++ [c]) := by
  have hlen : ((s ++ [c]) ++ List.replicate (k + 1) '/').length
      = (s ++ [c]).length + (k + 1) := by
    simp
    omega
  have htl : trimLen ((s ++ [c]) ++ List.replicate (k + 1) '/')
      (((s ++ [c]) ++ List.replicate (k + 1) '/').length)
      = (s ++ [c]).length := by
    rw [hlen, trimLen_drops_slashes (s ++ [c]) (by simp) (k + 1),
      trimLen_stops s c hc]
  rw [trim_toList, htl]
  rw [if_neg (by omega : ¬ PATH_MAX ≤ (s ++ [c]).length)]
  rw [List.take_left]

theorem takeWhile_stops {xs ys : List Char}
    (hxs : ∀ c ∈ xs, c ≠ '/') :
    (xs ++ '/' :: ys).takeWhile (fun c => c ≠ '/') = xs := by
  induction xs with
  | nil => simp
  | cons x xs ih =>
      have hx : x ≠ '/' := hxs x (by simp)
      rw [List.cons_append,
        List.takeWhile_cons_of_pos (by simpa using hx),
        ih (fun c hc => hxs c (by simp [hc]))]

theorem takeWhile_all {xs : List Char} (h : ∀ c ∈ xs, c ≠ '/') :
    xs.takeWhile (fun c => c ≠ '/') = xs := by
  induction xs with
  | nil => simp
  | cons x xs ih =>
      rw [List.takeWhile_cons_of_pos (by simpa using h x (by simp)),
        ih (fun c hc => h c (by simp [hc]))]

theorem afterLastSlash_shape (p name : List Char) (hs : '/' ∉ name)
    (hp : p = [] ∨ ∃ q, p = q ++ ['/']) :
    afterLastSlash (String.mk (p ++ name)) = String.mk name := by
  have hnm : ∀ c ∈ name.reverse, c ≠ '/' := fun c hc hcontra =>
    hs (by simpa [hcontra] using List.mem_reverse.mp hc)
  rcases hp with rfl | ⟨q, rfl⟩
  · unfold afterLastSlash
    show String.mk ((List.takeWhile _ ([] ++ name).reverse).reverse)
      = String.mk name
    rw [List.nil_append, takeWhile_all hnm, List.reverse_reverse]
  · unfold afterLastSlash
    have hrev : ((q ++ ['/']) ++ name).reverse
        = name.reverse ++ '/' :: q.reverse := by
      simp
    show String.mk
        ((List.takeWhile _ ((q ++ ['/']) ++ name).reverse).reverse)
      = String.mk name
    rw [hrev, takeWhile_stops hnm]
    simp

/-- C8 (amended): for a directory source whose path ends in one or more
trailing separators and whose stripped form has a nonempty, slash-free
final component — the suffix after the last separator when one exists
(e.g. `/a/dir/`), or the whole stripped path when it contains none
(e.g. `dir///`) — the top-level folder created under the destination is
named by that component, never the empty string, and the tree copy is
invoked on `(source, destination/component)`.  The only directory
sources ending in separators that fall outside this form are the
all-separator paths such as `"/"`, whose stripped form has no nonempty
final component; there the derived name is empty (see the
counterexample). -/
theorem main_trailing_slash_basename
    (p name : List Char) (k : Nat) (dst : String) (listable : Bool)
    (cs : Children) (dstIsDir : Bool) (env : FsEnv)
    (hn : name ≠ []) (hs : '/' ∉ name)
    (hp : p = [] ∨ ∃ q, p = q ++ ['/'])
    (hfit : (p ++ name).length < PATH_MAX)
    (hcount : count_files
        (String.mk ((p ++ name) ++ List.replicate (k + 1) '/'))
        (.dir listable cs) ≠ 0)
    (hnd : (dst ++ "/" ++ String.mk name).length < PATH_MAX)
    (hmk : env.mkdirOK (dst ++ "/" ++ String.mk name) = true) :
    (main_run 3
        (String.mk ((p ++ name) ++ List.replicate (k + 1) '/')) dst
        (Option.some (.dir listable cs)) dstIsDir env).treeCall
      = Option.some
          (String.mk ((p ++ name) ++ List.replicate (k + 1) '/'),
            dst ++ "/" ++ String.mk name)
    ∧ String.mk name ≠ "" := by
  obtain ⟨n, c, rfl⟩ : ∃ n c, name = n ++ [c] := by
    rcases List.eq_nil_or_concat name with h | ⟨n, c, h⟩
    · exact absurd h hn
    · exact ⟨n, c, by rw [h, List.concat_eq_append]⟩
  have hc : c ≠ '/' := fun hcontra => hs (by simp [hcontra])
  have hassoc : p ++ (n ++ [c]) = (p ++ n) ++ [c] := by
    rw [List.append_assoc]
  have ht : trim_trailing_slashes
      (String.mk ((p ++ (n ++ [c])) ++ List.replicate (k + 1) '/'))
      = String.mk (p ++ (n ++ [c])) := by
    rw [hassoc]
    exact trim_shape (p ++ n) c k hc (by rw [← hassoc]; exact hfit)
  have hb : afterLastSlash (String.mk (p ++ (n ++ [c])))
      = String.mk (n ++ [c]) := afterLastSlash_shape p (n ++ [c]) hs hp
  constructor
  · simp only [main_run, ht, hb]
    rw [if_neg (by decide : ¬ (3 ≠ 3)), if_neg hcount,
      if_neg (Nat.not_le.mpr hnd),
      if_neg (by simp [hmk] :
        ¬ env.mkdirOK (dst ++ "/" ++ String.mk (n ++ [c])) = false)]
  · intro hcontra
    exact hn (by simpa using congrArg String.toList hcontra)

/-- C8 counterexample: for the directory source `"/"` (which ends in a
path separator), stripping trailing separators leaves `"/"`, the derived
final component is the EMPTY string, and the tree copy is invoked on
`("/", "/d/")` — the created top-level folder is named by the empty
string, contradicting "never the empty string". -/
theorem main_root_source_empty_basename :
    afterLastSlash (trim_trailing_slashes "/") = ""
    ∧ (main_run 3 "/" "/d" (Option.some t8) false envAllOK).treeCall
      = Option.some ("/", "/d/") := by decide

/-- Witness for C8 at concrete inputs: the source `/a/dir///` (a
separator precedes the final component) and the source `dir///` (a
relative single-component path, where `strrchr` finds no separator and
the component is the whole stripped path). -/
theorem main_trailing_slash_basename_witness :
    ((main_run 3
        (String.mk ((['/', 'a', '/'] ++ ['d', 'i', 'r'])
          ++ List.replicate 3 '/')) "/b"
        (Option.some (.dir true (.cons "f" (.file [] true) .nil)))
        false envAllOK).treeCall
      = Option.some
          (String.mk ((['/', 'a', '/'] ++ ['d', 'i', 'r'])
            ++ List.replicate 3 '/'),
            "/b" ++ "/" ++ String.mk ['d', 'i', 'r'])
      ∧ String.mk ['d', 'i', 'r'] ≠ "")
    ∧ ((main_run 3
        (String.mk (([] ++ ['d', 'i', 'r']) ++ List.replicate 3 '/')) "/b"
        (Option.some (.dir true (.cons "g" (.file [] true) .nil)))
        false envAllOK).treeCall
      = Option.some
          (String.mk (([] ++ ['d', 'i', 'r']) ++ List.replicate 3 '/'),
            "/b" ++ "/" ++ String.mk ['d', 'i', 'r'])
      ∧ String.mk ['d', 'i', 'r'] ≠ "") :=
  ⟨main_trailing_slash_basename ['/', 'a', '/'] ['d', 'i', 'r'] 2 "/b"
    true (.cons "f" (.file [] true) .nil) false envAllOK (by decide)
    (by decide) (Or.inr ⟨['/', 'a'], rfl⟩) (by decide) (by decide)
    (by decide) rfl,
   main_trailing_slash_basename [] ['d', 'i', 'r'] 2 "/b"
    true (.cons "g" (.file [] true) .nil) false envAllOK (by decide)
    (by decide) (Or.inl rfl) (by decide) (by decide)
    (by decide) rfl⟩

/-- Witness for C1 at concrete inputs. -/
theorem count_files_exact_witness :
    count_files "/s" tGood = numFiles tGood
    ∧ count_files "/s" (.dir true csW) = count_files "/s" (.dir true csW2) :=
  ⟨count_files_exact.1 "/s" tGood (by decide) (by decide),
   count_files_exact.2 "/s" true csW csW2
     (PermC.swap "a" (.file [] true) "b" .other .nil)⟩
